import Mathlib

/-!
Verification development for the book-distiller repository
(`src/lib/pages/book-distiller/index.tsx`).

The component's state and operations are shallowly embedded:

* `Sec` mirrors the section records kept in component state and in the
  Dexie `sections` table (`id`, `bookId`, `content`, `heading`, `status`,
  `order`); UUID identifiers are modelled as natural numbers.
* Pure helpers (`parseHeading`, the accepted/stitched memos,
  `updateSectionLocal`, `undoLast`) are translated function by function.
* The asynchronous `generateNext` cycle is modelled as a function of the
  component state, the oracle outcome (`Except`), and the value of the
  stop flag observed after the provider call returns; the `setTimeout`
  continuation bodies are modelled as separate functions of the store
  contents read when the timer fires.
* A small trace semantics (`stepOp`/`runFrom`) runs sequences of
  user-level store operations and keeps ghost logs of ordinal
  assignments/removals and of each completion's status decision.

React state reads are modelled as live reads of the current state.
JavaScript strings are modelled as Lean `String` (character counts stand
in for UTF-16 code-unit counts; `Char.isWhitespace` stands in for the
regex class `\s`).
-/

namespace BookDistiller

/-- Section lifecycle status (`'draft' | 'accepted' | 'discarded'`). -/
inductive Status
  | draft
  | accepted
  | discarded
deriving DecidableEq

/-- One section record, as kept in component state and in the `sections`
table. -/
structure Sec where
  id : Nat
  bookId : String
  content : String
  heading : String
  status : Status
  order : Nat
deriving DecidableEq

/-- JavaScript `String.prototype.trim`: strip whitespace from both
ends. -/
def jsTrim (s : String) : String :=
  String.mk (((s.toList.dropWhile Char.isWhitespace).reverse.dropWhile
    Char.isWhitespace).reverse)

/-- JavaScript `String.prototype.slice(0, n)` (character counts stand in
for UTF-16 code-unit counts). -/
def takeStr (n : Nat) (s : String) : String :=
  String.mk (s.toList.take n)

/-- Split a character list at a separator character (semantics of
JavaScript `String.prototype.split` with a one-character separator). -/
def splitCharsAt (sep : Char) : List Char → List (List Char)
  | [] => [[]]
  | x :: xs =>
      match splitCharsAt sep xs with
      | [] => [[]]
      | g :: gs => if x = sep then [] :: g :: gs else (x :: g) :: gs

/-- The lines of a string, as split by `split('\n')`. -/
def splitLines (s : String) : List String :=
  (splitCharsAt '\n' s.toList).map String.mk

/-- JavaScript `String.prototype.includes`: substring containment
(empty needle is always contained). -/
def includesStr (s pat : String) : Bool :=
  (List.range (s.toList.length + 1)).any
    (fun i => pat.toList.isPrefixOf (s.toList.drop i))

/-- One line of the multiline regex match `^#\s+(.+)$`: a line that
starts with `#`, followed by at least one whitespace character and at
least one further character, yields the trimmed capture `m[1].trim()`
(after the greedy `\s+` and `.trim()`, this is the tail of the line
after `#` with surrounding whitespace removed). -/
def headingLineGrab (l : String) : Option String :=
  match l.toList with
  | '#' :: c :: rest =>
      if c.isWhitespace && !(rest.isEmpty) then some (jsTrim (String.mk (c :: rest)))
      else none
  | _ => none

/-- The fallback `replace(/^#+\s*/, '')`: strip a leading run of `#`
characters and the whitespace run following it (only when the string
starts with `#`). -/
def stripHashPre (s : String) : String :=
  match s.toList with
  | '#' :: _ =>
      String.mk ((s.toList.dropWhile (fun c => c = '#')).dropWhile Char.isWhitespace)
  | _ => s

/-- `parseHeading` from the source: first line matching `^#\s+(.+)$`
(trimmed capture), else the first line with leading `#`s stripped,
cut to 120 characters, else `"Untitled"`. -/
def parseHeading (md : String) : String :=
  match (splitLines md).findSome? headingLineGrab with
  | some h => h
  | none =>
      let first := (splitLines md).headD ""
      let cut := takeStr 120 (stripHashPre first)
      if cut = "" then "Untitled" else cut

/-- Comparison used by `.sort((a, b) => a.order - b.order)`. -/
def ordLe (a b : Sec) : Prop := a.order ≤ b.order

instance : DecidableRel ordLe := fun a b => Nat.decLe a.order b.order

instance : IsTotal Sec ordLe := ⟨fun a b => Nat.le_total a.order b.order⟩

instance : IsTrans Sec ordLe := ⟨fun _ _ _ h h' => Nat.le_trans h h'⟩

/-- Stable sort by `order` (JavaScript `Array.prototype.sort` with the
numeric comparator is stable; Dexie `sortBy('order')` likewise). -/
def sortByOrd (l : List Sec) : List Sec := List.insertionSort ordLe l

/-- The `accepted` memo: sections with status `accepted`, sorted by
`order` ascending. -/
def acceptedOf (l : List Sec) : List Sec :=
  sortByOrd (l.filter (fun s => s.status == Status.accepted))

/-- The `stitched` memo: accepted contents joined with a blank line. -/
def stitched (l : List Sec) : String :=
  String.intercalate "\n\n" ((acceptedOf l).map Sec.content)

/-- Number of sections whose status is `accepted`. -/
def countAccepted (l : List Sec) : Nat :=
  (l.filter (fun s => s.status == Status.accepted)).length

/-- The update record passed to `updateSectionLocal` (absent fields are
`none`, mirroring absent object keys). -/
structure SecUpd where
  id : Nat
  content : Option String
  heading : Option String
  status : Option Status

/-- `updateSectionLocal`: map over the list, merging the update into the
matching section; the heading, when not supplied, is recomputed from the
(possibly updated) content. -/
def updateSectionLocal (l : List Sec) (upd : SecUpd) : List Sec :=
  l.map (fun s =>
    if s.id = upd.id then
      { s with
        content := upd.content.getD s.content
        status := upd.status.getD s.status
        heading := upd.heading.getD (parseHeading (upd.content.getD s.content)) }
    else s)

/-- `edit(id, content)`. -/
def edit (l : List Sec) (id : Nat) (content : String) : List Sec :=
  updateSectionLocal l ⟨id, some content, none, none⟩

/-- The index removed by `undoLast`: position of the last section whose
status is `accepted` (computed as `prev.length - 1 - reverseIndex`). -/
def undoTarget (l : List Sec) : Option Nat :=
  match l.reverse.findIdx? (fun s => s.status == Status.accepted) with
  | none => none
  | some i => some (l.length - 1 - i)

/-- `undoLast`: splice out the most recently accepted section; unchanged
when no accepted section exists. -/
def undoLast (l : List Sec) : List Sec :=
  match undoTarget l with
  | none => l
  | some idx => l.take idx ++ l.drop (idx + 1)

/-- Component state relevant to the generation cycle. -/
structure AppState where
  bookId : String
  apiKey : String
  title : String
  author : String
  bookText : String
  prompt : String
  stopToken : String
  maxSections : Nat
  autoAdvance : Bool
  isBusy : Bool
  shouldStop : Bool
  sections : List Sec
deriving DecidableEq

/-- The "Previously accepted sections" history string:
`(acceptedOverride ?? accepted).map(s => s.content).join('\n\n')`. -/
def assembleHistory (acceptedOverride : Option (List Sec)) (secs : List Sec) : String :=
  String.intercalate "\n\n" (((acceptedOverride.getD (acceptedOf secs)).map Sec.content))

/-- The user-role payload template built in `generateNext`. -/
def buildUser (st : AppState) (history : String) : String :=
  "Book Title: " ++ (if st.title = "" then "(unknown)" else st.title) ++
  "\nAuthor: " ++ (if st.author = "" then "(unknown)" else st.author) ++
  "\n\nFull book text (or extract):\n" ++ takeStr 100000 st.bookText ++
  "\n\nPreviously accepted sections (for continuity):\n" ++ history ++
  "\n\nGenerate the next section according to the protocol above. Then end if appropriate with the stop token: " ++ st.stopToken

/-- Result of one `generateNext` invocation: whether a provider request
was dispatched, the user payload of that request, the resulting
component state, and the scheduled auto-advance continuation (carrying
the `hasStopToken` value captured before the timer), if any. -/
structure GenOutcome where
  dispatched : Bool
  requestUser : Option String
  st : AppState
  cont : Option Bool
deriving DecidableEq

/-- One `generateNext` cycle. Inputs beyond the state: the fresh UUID
for the appended section, the oracle outcome (`Except.error` models a
thrown provider/transport error), the value of the stop flag observed
after the provider call returns (it may have been set during the await),
and the `acceptedOverride` argument. Mirrors the source: the three entry
guards (`!bookId`, `!currentApiKey`, `shouldStop`), the busy flag set
for the duration of the call and cleared in `finally` together with the
stop flag, the append with `order = sections.length + 1` and the status
rule `autoAdvance && !isFirstSection`, and the continuation scheduled
only when `autoAdvance && !isFirstSection && !shouldStop`, capturing
`hasStopToken = text.trim().includes(stopToken)` eagerly. -/
def generateNext (st : AppState) (newId : Nat) (oracle : Except String String)
    (stopDuringCall : Bool) (acceptedOverride : Option (List Sec)) : GenOutcome :=
  if st.bookId = "" then ⟨false, none, st, none⟩
  else if st.apiKey = "" then ⟨false, none, st, none⟩
  else if st.shouldStop then ⟨false, none, { st with shouldStop := false }, none⟩
  else
    let history := assembleHistory acceptedOverride st.sections
    let user := buildUser st history
    match oracle with
    | Except.error _ =>
        ⟨true, some user, { st with isBusy := false, shouldStop := false }, none⟩
    | Except.ok text =>
        let isFirstSection := st.sections.isEmpty
        let ord := st.sections.length + 1
        let stat := if st.autoAdvance && !isFirstSection then Status.accepted else Status.draft
        let sec : Sec :=
          ⟨newId, st.bookId, jsTrim text, parseHeading text, stat, ord⟩
        let cont :=
          if st.autoAdvance && !isFirstSection && !stopDuringCall then
            some (includesStr (jsTrim text) st.stopToken)
          else none
        ⟨true, some user,
         { st with sections := st.sections ++ [sec], isBusy := false, shouldStop := false },
         cont⟩

/-- Result of a scheduled continuation check: whether another request
was issued (a recursive `generateNext` call) and the resulting
auto-advance flag. -/
structure ContEval where
  issued : Bool
  autoAdv : Bool
deriving DecidableEq

/-- Body of the `setTimeout` scheduled at the end of a successful
`generateNext`: abort when the stop flag is set at fire time; otherwise
re-read the store (sorted by `order`), count accepted sections, and
issue another request exactly when the captured `hasStopToken` is false
and the count is below the maximum; otherwise switch auto-advance off. -/
def autoAdvanceCheck (hasStopToken : Bool) (shouldStopAtFire : Bool)
    (storeSections : List Sec) (maxSections : Nat) (autoAdvance : Bool) : ContEval :=
  if shouldStopAtFire then ⟨false, autoAdvance⟩
  else
    let currentSections := sortByOrd storeSections
    let acceptedCount := (currentSections.filter (fun s => s.status == Status.accepted)).length
    if !hasStopToken && decide (acceptedCount < maxSections) then ⟨true, autoAdvance⟩
    else ⟨false, false⟩

/-- Body of the `setTimeout` scheduled by `accept`: abort when the stop
flag is set at fire time; otherwise re-read the store, take the highest-
`order` section as `lastSection`, and issue another request exactly when
it exists, its stored content lacks the stop token, and the accepted
count is below the maximum; otherwise switch auto-advance off. -/
def acceptAdvanceCheck (shouldStopAtFire : Bool) (storeSections : List Sec)
    (stopToken : String) (maxSections : Nat) (autoAdvance : Bool) : ContEval :=
  if shouldStopAtFire then ⟨false, autoAdvance⟩
  else
    let currentSections := sortByOrd storeSections
    let acceptedCount := (currentSections.filter (fun s => s.status == Status.accepted)).length
    match currentSections.getLast? with
    | some lastSection =>
        if !(includesStr lastSection.content stopToken)
            && decide (acceptedCount < maxSections) then
          ⟨true, autoAdvance⟩
        else ⟨false, false⟩
    | none => ⟨false, false⟩

/-- Result of the synchronous part of `accept`: updated sections and
whether a continuation check was scheduled. -/
structure AcceptOutcome where
  sections : List Sec
  contScheduled : Bool
deriving DecidableEq

/-- `accept(id)`: set the section's status to `accepted`; schedule the
continuation check only when auto-advance is on, the controller is not
busy, and no stop was requested. -/
def acceptSection (st : AppState) (id : Nat) : AcceptOutcome :=
  ⟨updateSectionLocal st.sections ⟨id, none, none, some Status.accepted⟩,
   st.autoAdvance && !st.isBusy && !st.shouldStop⟩

/-- Ghost log event: an ordinal was assigned to an appended section, or
removed together with a deleted section. -/
inductive Ev
  | assign (n : Nat)
  | remove (n : Nat)
deriving DecidableEq

/-- Ghost log entry for one successful completion: the auto-advance flag
at completion time, the number of completions that had happened before
for this document, and the status assigned to the appended section. -/
structure GenEv where
  auto : Bool
  priorCount : Nat
  status : Status
deriving DecidableEq

/-- State of the user-level trace semantics: the store, the auto-advance
flag, a count of successful completions so far, and the ghost logs. -/
structure TraceState where
  sections : List Sec
  autoAdvance : Bool
  genCount : Nat
  events : List Ev
  genLog : List GenEv
deriving DecidableEq

/-- User-level store operations: a successful completion (the store
effects of `generateNext`'s success path), accept/discard/edit of a
section, undo of the last accepted section, clearing the run, and
toggling auto-advance. -/
inductive Op
  | gen (id : Nat) (text : String)
  | acceptOp (id : Nat)
  | discardOp (id : Nat)
  | editOp (id : Nat) (text : String)
  | undo
  | clear
  | setAuto (b : Bool)

/-- One step of the trace semantics. `gen` appends with
`order = sections.length + 1` and the status rule from `generateNext`;
`undo` splices out the most recently accepted section; `clear` removes
everything. The ghost logs record assignments, removals, and completion
decisions. -/
def stepOp (st : TraceState) (op : Op) : TraceState :=
  match op with
  | Op.gen id text =>
      let isFirst := st.sections.isEmpty
      let ord := st.sections.length + 1
      let stat := if st.autoAdvance && !isFirst then Status.accepted else Status.draft
      let sec : Sec := ⟨id, "", jsTrim text, parseHeading text, stat, ord⟩
      { st with
        sections := st.sections ++ [sec]
        genCount := st.genCount + 1
        events := st.events ++ [Ev.assign ord]
        genLog := st.genLog ++ [⟨st.autoAdvance, st.genCount, stat⟩] }
  | Op.acceptOp id =>
      { st with sections := updateSectionLocal st.sections ⟨id, none, none, some Status.accepted⟩ }
  | Op.discardOp id =>
      { st with sections := updateSectionLocal st.sections ⟨id, none, none, some Status.discarded⟩ }
  | Op.editOp id text =>
      { st with sections := edit st.sections id text }
  | Op.undo =>
      match undoTarget st.sections with
      | none => st
      | some idx =>
          { st with
            sections := st.sections.take idx ++ st.sections.drop (idx + 1)
            events := st.events ++
              (match st.sections.get? idx with
               | some s => [Ev.remove s.order]
               | none => []) }
  | Op.clear =>
      { st with
        sections := []
        events := st.events ++ st.sections.map (fun s => Ev.remove s.order) }
  | Op.setAuto b => { st with autoAdvance := b }

/-- Run a list of operations from a given trace state. -/
def runFrom (st : TraceState) : List Op → TraceState
  | [] => st
  | op :: rest => runFrom (stepOp st op) rest

/-- The empty initial trace state. -/
def initTrace : TraceState := ⟨[], false, 0, [], []⟩

/-- Run a list of operations from the empty state. -/
def runTrace (ops : List Op) : TraceState := runFrom initTrace ops

/-- The ordinals assigned, in order of assignment. -/
def assigns (evs : List Ev) : List Nat :=
  evs.filterMap (fun e => match e with | Ev.assign n => some n | Ev.remove _ => none)

/-- Whether any removal occurs in the event log. -/
def hasRemove : List Ev → Bool
  | [] => false
  | Ev.remove _ :: _ => true
  | Ev.assign _ :: rest => hasRemove rest

/-- Strict increase of a list of naturals. -/
def strictIncr : List Nat → Bool
  | [] => true
  | [_] => true
  | a :: b :: rest => decide (a < b) && strictIncr (b :: rest)

/-- No ordinal is assigned again after having been removed. -/
def noReuse : List Ev → Bool
  | [] => true
  | Ev.remove n :: rest => !((assigns rest).contains n) && noReuse rest
  | Ev.assign _ :: rest => noReuse rest

/-- The first assigned ordinal, if any, is 1. -/
def startsOne (l : List Nat) : Bool :=
  match l with
  | [] => true
  | x :: _ => x == 1

/-- Formalisation of claim C5 over an event log: assigned ordinals are
strictly increasing, start at 1, and a removed ordinal is never assigned
again. -/
def claimC5check (evs : List Ev) : Bool :=
  strictIncr (assigns evs) && startsOne (assigns evs) && noReuse evs

/-- Formalisation of claim C1 over the completion log: a completion's
status is `accepted` exactly when auto-advance was active and it was not
the first completion ever for the document. -/
def claimC1check (log : List GenEv) : Bool :=
  log.all (fun ev => (ev.status == Status.accepted) == (ev.auto && !(ev.priorCount == 0)))

/-- Number of `gen` operations in a list of operations. -/
def gensIn : List Op → Nat
  | [] => 0
  | Op.gen _ _ :: rest => gensIn rest + 1
  | _ :: rest => gensIn rest

/-- An operation that never deletes sections. -/
def nonDeleting : Op → Bool
  | Op.undo => false
  | Op.clear => false
  | _ => true

/-- The `assign` events produced by a deletion-free run starting from a
store of `L` sections. -/
def assignEvs (L : Nat) : List Op → List Ev
  | [] => []
  | Op.gen _ _ :: rest => Ev.assign (L + 1) :: assignEvs (L + 1) rest
  | _ :: rest => assignEvs L rest

section Lemmas

theorem updateSectionLocal_length (l : List Sec) (upd : SecUpd) :
    (updateSectionLocal l upd).length = l.length := by
  simp [updateSectionLocal]

theorem countAccepted_sortByOrd (l : List Sec) :
    ((sortByOrd l).filter (fun s => s.status == Status.accepted)).length
      = countAccepted l := by
  exact ((List.perm_insertionSort ordLe l).filter _).length_eq

theorem autoAdvanceCheck_run (hst : Bool) (store : List Sec) (m : Nat) (a : Bool) :
    autoAdvanceCheck hst false store m a =
      if !hst && decide (countAccepted store < m) then ⟨true, a⟩ else ⟨false, false⟩ := by
  simp only [autoAdvanceCheck, Bool.false_eq_true, if_false, countAccepted_sortByOrd]

theorem hasRemove_append (a b : List Ev) :
    hasRemove (a ++ b) = (hasRemove a || hasRemove b) := by
  induction a with
  | nil => rfl
  | cons e rest ih => cases e <;> simp [hasRemove, ih]

theorem assigns_append (a b : List Ev) :
    assigns (a ++ b) = assigns a ++ assigns b := by
  simp [assigns]

theorem noReuse_of_not_hasRemove (evs : List Ev) (h : hasRemove evs = false) :
    noReuse evs = true := by
  induction evs with
  | nil => rfl
  | cons e rest ih =>
      cases e with
      | assign n => exact ih (by simpa [hasRemove] using h)
      | remove n => simp [hasRemove] at h

theorem strictIncr_range' (a n : Nat) : strictIncr (List.range' a n) = true := by
  induction n generalizing a with
  | zero => rfl
  | succ n ih =>
      cases n with
      | zero => rfl
      | succ k =>
          have h2 : strictIncr (List.range' (a + 1) (k + 1)) = true := ih (a + 1)
          rw [List.range'_succ] at h2 ⊢
          simp only [strictIncr] at h2 ⊢
          simp [h2, Nat.lt_succ_self]

theorem startsOne_range' (n : Nat) : startsOne (List.range' 1 n) = true := by
  cases n <;> rfl

theorem assigns_assignEvs (L : Nat) (ops : List Op) :
    assigns (assignEvs L ops) = List.range' (L + 1) (gensIn ops) := by
  induction ops generalizing L with
  | nil => rfl
  | cons op rest ih =>
      cases op with
      | gen id text =>
          rw [show gensIn (Op.gen id text :: rest) = gensIn rest + 1 from rfl,
            List.range'_succ]
          simpa [assignEvs, assigns] using ih (L + 1)
      | acceptOp id => simpa [assignEvs, gensIn] using ih L
      | discardOp id => simpa [assignEvs, gensIn] using ih L
      | editOp id text => simpa [assignEvs, gensIn] using ih L
      | undo => simpa [assignEvs, gensIn] using ih L
      | clear => simpa [assignEvs, gensIn] using ih L
      | setAuto b => simpa [assignEvs, gensIn] using ih L

theorem hasRemove_assignEvs (L : Nat) (ops : List Op) :
    hasRemove (assignEvs L ops) = false := by
  induction ops generalizing L with
  | nil => rfl
  | cons op rest ih => cases op <;> simp [assignEvs, hasRemove, ih]

theorem runFrom_noDel (ops : List Op) (hnd : ∀ op ∈ ops, nonDeleting op = true)
    (st : TraceState) :
    (runFrom st ops).sections.length = st.sections.length + gensIn ops ∧
    (runFrom st ops).events = st.events ++ assignEvs st.sections.length ops := by
  induction ops generalizing st with
  | nil => simp [runFrom, assignEvs, gensIn]
  | cons op rest ih =>
      have hop : nonDeleting op = true := hnd op (by simp)
      have hrest : ∀ op ∈ rest, nonDeleting op = true :=
        fun o ho => hnd o (by simp [ho])
      cases op with
      | gen id text =>
          obtain ⟨h1, h2⟩ := ih hrest (stepOp st (Op.gen id text))
          simp only [stepOp, List.length_append, List.length_cons,
            List.length_nil] at h1 h2
          refine ⟨?_, ?_⟩
          · show (runFrom (stepOp st (Op.gen id text)) rest).sections.length = _
            simp only [stepOp] at *
            simp only [gensIn]
            omega
          · show (runFrom (stepOp st (Op.gen id text)) rest).events = _
            simp only [stepOp] at *
            rw [h2]
            simp [assignEvs, List.append_assoc]
      | acceptOp id =>
          have h := ih hrest (stepOp st (Op.acceptOp id))
          simp only [stepOp, updateSectionLocal_length] at h
          simpa [runFrom, stepOp, assignEvs, gensIn] using h
      | discardOp id =>
          have h := ih hrest (stepOp st (Op.discardOp id))
          simp only [stepOp, updateSectionLocal_length] at h
          simpa [runFrom, stepOp, assignEvs, gensIn] using h
      | editOp id text =>
          have h := ih hrest (stepOp st (Op.editOp id text))
          simp only [stepOp, edit, updateSectionLocal_length] at h
          simpa [runFrom, stepOp, edit, assignEvs, gensIn] using h
      | undo => simp [nonDeleting] at hop
      | clear => simp [nonDeleting] at hop
      | setAuto b =>
          have h := ih hrest (stepOp st (Op.setAuto b))
          simpa [runFrom, stepOp, assignEvs, gensIn] using h

end Lemmas

/-- C7: when the Completion Oracle call fails, `generateNext` clears the
busy flag, clears the cancellation-requested flag, appends no section,
schedules no auto-advance continuation, and leaves the auto-advance mode
flag unchanged (the request had been dispatched). -/
theorem c7_provider_error_cleanup (st : AppState) (id : Nat) (msg : String)
    (sd : Bool) (ov : Option (List Sec))
    (hb : st.bookId ≠ "") (hk : st.apiKey ≠ "") (hs : st.shouldStop = false) :
    (generateNext st id (Except.error msg) sd ov).st.isBusy = false ∧
    (generateNext st id (Except.error msg) sd ov).st.shouldStop = false ∧
    (generateNext st id (Except.error msg) sd ov).st.sections = st.sections ∧
    (generateNext st id (Except.error msg) sd ov).cont = none ∧
    (generateNext st id (Except.error msg) sd ov).st.autoAdvance = st.autoAdvance ∧
    (generateNext st id (Except.error msg) sd ov).dispatched = true := by
  simp [generateNext, hb, hk, hs]

/-- Concrete instance of `c7_provider_error_cleanup`: a failing provider
call from a busy, auto-advance state with one pending store. -/
def stC7w : AppState := ⟨"b", "k", "", "", "", "", "Z", 2, true, true, false, []⟩

/-- Witness for C7 at a concrete state and error. -/
theorem c7_provider_error_cleanup_witness :
    (generateNext stC7w 0 (Except.error "boom") false none).st.isBusy = false ∧
    (generateNext stC7w 0 (Except.error "boom") false none).st.shouldStop = false ∧
    (generateNext stC7w 0 (Except.error "boom") false none).st.sections = stC7w.sections ∧
    (generateNext stC7w 0 (Except.error "boom") false none).cont = none ∧
    (generateNext stC7w 0 (Except.error "boom") false none).st.autoAdvance = stC7w.autoAdvance ∧
    (generateNext stC7w 0 (Except.error "boom") false none).dispatched = true :=
  c7_provider_error_cleanup stC7w 0 "boom" false none (by decide) (by decide) rfl

/-- C8: a cancellation flag observed set when a scheduled continuation
check fires makes both continuation bodies (the one scheduled by
`generateNext` and the one scheduled by `accept`) abort: no request is
issued and the auto-advance flag is returned unchanged. -/
theorem c8_cancellation_aborts_check (h : Bool) (store : List Sec) (tok : String)
    (m : Nat) (a : Bool) :
    autoAdvanceCheck h true store m a = ⟨false, a⟩ ∧
    acceptAdvanceCheck true store tok m a = ⟨false, a⟩ :=
  ⟨rfl, rfl⟩

/-- C2: for a continuation scheduled by `generateNext` (so the captured
flag is `text.trim().includes(stopToken)`), the evaluation that runs with
the cancellation flag clear issues another request exactly when the stop
token is absent from the generated content and the accepted count read
from the store is below the maximum; in every other case it issues no
request and switches auto-advance off. -/
theorem c2_continuation_decision (st : AppState) (id : Nat) (text : String)
    (sd : Bool) (ov : Option (List Sec)) (hst : Bool)
    (hcont : (generateNext st id (Except.ok text) sd ov).cont = some hst)
    (store : List Sec) (m : Nat) (a : Bool) :
    ((autoAdvanceCheck hst false store m a).issued = true ↔
      (includesStr (jsTrim text) st.stopToken = false ∧ countAccepted store < m)) ∧
    (¬ (includesStr (jsTrim text) st.stopToken = false ∧ countAccepted store < m) →
      autoAdvanceCheck hst false store m a = ⟨false, false⟩) := by
  have hval : hst = includesStr (jsTrim text) st.stopToken := by
    simp only [generateNext] at hcont
    split at hcont
    · simp at hcont
    · split at hcont
      · simp at hcont
      · split at hcont
        · simp at hcont
        · simp at hcont
          exact hcont.2.symm
  subst hval
  rw [autoAdvanceCheck_run]
  cases hI : includesStr (jsTrim text) st.stopToken <;>
    by_cases hC : countAccepted store < m <;> simp [hI, hC]

/-- Concrete state for the C2 witness: one accepted prior section,
auto-advance on, stop token `Z`, maximum 2. -/
def stC2w : AppState :=
  ⟨"b", "k", "", "", "", "", "Z", 2, true, false, false,
   [⟨0, "b", "t1", "t1", Status.accepted, 1⟩]⟩

/-- Store contents at continuation-fire time for the C2 witness. -/
def storeC2w : List Sec :=
  [⟨0, "b", "t1", "t1", Status.accepted, 1⟩, ⟨1, "b", "t2", "t2", Status.accepted, 2⟩]

/-- Witness for C2 at a concrete generation and store. -/
theorem c2_continuation_decision_witness :
    ((autoAdvanceCheck false false storeC2w 2 true).issued = true ↔
      (includesStr (jsTrim "t2") stC2w.stopToken = false ∧ countAccepted storeC2w < 2)) ∧
    (¬ (includesStr (jsTrim "t2") stC2w.stopToken = false ∧ countAccepted storeC2w < 2) →
      autoAdvanceCheck false false storeC2w 2 true = ⟨false, false⟩) :=
  c2_continuation_decision stC2w 1 "t2" false none false (by decide) storeC2w 2 true

/-- C9: the assembled history (no override) equals the stitched export;
every section contributing to `acceptedOf` is an `accepted` member of
the input and every accepted member contributes; the contribution list
is ordered by ordinal; and with no accepted section the stitched text is
empty. Contents of `draft`/`discarded` sections therefore never enter
the join. -/
theorem c9_stitched_accepted_only :
    (∀ secs : List Sec, assembleHistory none secs = stitched secs) ∧
    (∀ (l : List Sec) (s : Sec), s ∈ acceptedOf l → s.status = Status.accepted ∧ s ∈ l) ∧
    (∀ (l : List Sec) (s : Sec), s ∈ l → s.status = Status.accepted → s ∈ acceptedOf l) ∧
    (∀ l : List Sec, List.Pairwise ordLe (acceptedOf l)) ∧
    (∀ l : List Sec, (∀ s ∈ l, s.status ≠ Status.accepted) → stitched l = "") := by
  refine ⟨fun secs => rfl, ?_, ?_, ?_, ?_⟩
  · intro l s hs
    have hmem : s ∈ l.filter (fun s => s.status == Status.accepted) :=
      (List.perm_insertionSort ordLe _).subset hs
    rcases List.mem_filter.mp hmem with ⟨hl, hacc⟩
    exact ⟨by simpa using hacc, hl⟩
  · intro l s hl hacc
    exact ((List.perm_insertionSort ordLe _).mem_iff).mpr
      (List.mem_filter.mpr ⟨hl, by simp [hacc]⟩)
  · intro l
    exact List.sorted_insertionSort ordLe _
  · intro l hnone
    have hfil : l.filter (fun s => s.status == Status.accepted) = [] := by
      refine List.filter_eq_nil_iff.mpr ?_
      intro a ha
      simp [hnone a ha]
    simp [stitched, acceptedOf, sortByOrd, hfil]
    rfl

/-- Concrete section lists for the C9 witness. -/
def l9a : List Sec :=
  [⟨0, "b", "one", "one", Status.accepted, 2⟩, ⟨1, "b", "two", "two", Status.draft, 1⟩]

/-- A list with no accepted section, for the C9 witness. -/
def l9b : List Sec :=
  [⟨2, "b", "x", "x", Status.draft, 1⟩, ⟨3, "b", "y", "y", Status.discarded, 2⟩]

/-- Witness for C9: the hypothesis-bearing conjuncts applied at concrete
lists and sections. -/
theorem c9_stitched_accepted_only_witness :
    ((⟨0, "b", "one", "one", Status.accepted, 2⟩ : Sec).status = Status.accepted ∧
      (⟨0, "b", "one", "one", Status.accepted, 2⟩ : Sec) ∈ l9a) ∧
    (⟨0, "b", "one", "one", Status.accepted, 2⟩ : Sec) ∈ acceptedOf l9a ∧
    stitched l9b = "" :=
  ⟨c9_stitched_accepted_only.2.1 l9a _ (by decide),
   c9_stitched_accepted_only.2.2.1 l9a _ (by decide) rfl,
   c9_stitched_accepted_only.2.2.2.2 l9b (by decide)⟩

/-- C10: `editContent(id, text)` (the `edit` path through
`updateSectionLocal`) preserves the list length and, position by
position, leaves sections with a different id unchanged and replaces the
matching section's content and recomputed heading while keeping its id,
status, and ordinal. -/
theorem c10_edit_frame (l : List Sec) (id : Nat) (text : String) (i : Nat) (s : Sec)
    (hget : l.get? i = some s) :
    (edit l id text).length = l.length ∧
    (edit l id text).get? i =
      some (if s.id = id then { s with content := text, heading := parseHeading text }
            else s) := by
  constructor
  · simp [edit, updateSectionLocal]
  · simp only [edit, updateSectionLocal, List.get?_map, hget, Option.map_some']
    rfl

/-- Concrete list for the C10 witness. -/
def l10 : List Sec :=
  [⟨0, "b", "x", "x", Status.draft, 1⟩, ⟨1, "b", "y", "y", Status.accepted, 2⟩]

/-- Witness for C10: editing section 0 of a concrete two-element list. -/
theorem c10_edit_frame_witness :
    (edit l10 0 "new text").length = l10.length ∧
    (edit l10 0 "new text").get? 0 =
      some (if (⟨0, "b", "x", "x", Status.draft, 1⟩ : Sec).id = 0 then
              { (⟨0, "b", "x", "x", Status.draft, 1⟩ : Sec) with
                content := "new text", heading := parseHeading "new text" }
            else (⟨0, "b", "x", "x", Status.draft, 1⟩ : Sec)) :=
  c10_edit_frame l10 0 "new text" 0 _ rfl

/-- A single discarded section, for the C6 counterexample. -/
def l6a : List Sec := [⟨0, "b", "x", "x", Status.discarded, 1⟩]

/-- A single accepted section, for the C6 counterexample. -/
def l6b : List Sec := [⟨1, "b", "y", "y", Status.accepted, 1⟩]

/-- C6 counterexample: `updateSectionLocal` (the `setStatus` path) applies
discarded→accepted and accepted→discarded without any rejection — the
status does not remain as it was and no InvalidTransition condition
exists anywhere in the code. -/
theorem c6_counterexample :
    (updateSectionLocal l6a ⟨0, none, none, some Status.accepted⟩).map Sec.status
      = [Status.accepted] ∧
    (updateSectionLocal l6b ⟨1, none, none, some Status.discarded⟩).map Sec.status
      = [Status.discarded] := by
  constructor <;> rfl

/-- C6 amended: a status update is applied unconditionally to the
matching section (its heading being recomputed from its content), and
every other section is unchanged, whatever the previous status was. -/
theorem c6_setStatus_applied_unconditionally (l : List Sec) (id : Nat) (st' : Status)
    (i : Nat) (s : Sec) (hget : l.get? i = some s) :
    (updateSectionLocal l ⟨id, none, none, some st'⟩).get? i =
      some (if s.id = id then { s with status := st', heading := parseHeading s.content }
            else s) := by
  simp only [updateSectionLocal, List.get?_map, hget, Option.map_some']
  rfl

/-- Concrete list for the C6 amended witness. -/
def l6w : List Sec :=
  [⟨0, "b", "x", "x", Status.discarded, 1⟩, ⟨1, "b", "y", "y", Status.draft, 2⟩]

/-- Witness for the C6 amended theorem: setting a discarded section to
accepted at a concrete list. -/
theorem c6_setStatus_applied_unconditionally_witness :
    (updateSectionLocal l6w ⟨0, none, none, some Status.accepted⟩).get? 0 =
      some (if (⟨0, "b", "x", "x", Status.discarded, 1⟩ : Sec).id = 0 then
              { (⟨0, "b", "x", "x", Status.discarded, 1⟩ : Sec) with
                status := Status.accepted, heading := parseHeading "x" }
            else (⟨0, "b", "x", "x", Status.discarded, 1⟩ : Sec)) :=
  c6_setStatus_applied_unconditionally l6w 0 Status.accepted 0 _ rfl

/-- A busy state with valid book and key, for the C3 counterexample. -/
def stC3 : AppState := ⟨"b", "k", "", "", "", "", "Z", 12, false, true, false, []⟩

/-- C3 counterexample: `generateNext` invoked while the busy flag is set
is not a no-op — it dispatches a request and changes the section
store (there is no busy-flag guard inside `generateNext`). -/
theorem c3_counterexample :
    stC3.isBusy = true ∧
    (generateNext stC3 0 (Except.ok "hello") false none).dispatched = true ∧
    (generateNext stC3 0 (Except.ok "hello") false none).st.sections ≠ stC3.sections := by
  refine ⟨rfl, rfl, ?_⟩
  decide

/-- C3 amended: `generateNext` itself never consults the busy flag — its
outcome is the same whether the flag is set or clear (once the entry
guards pass) — and single-flight is maintained by callers: the `accept`
path schedules no continuation while busy (and the UI disables the
generation buttons while busy). -/
theorem c3_busy_guard_in_callers :
    (∀ (st : AppState) (id : Nat) (orc : Except String String) (sd : Bool)
        (ov : Option (List Sec)),
      st.bookId ≠ "" → st.apiKey ≠ "" → st.shouldStop = false →
      generateNext { st with isBusy := true } id orc sd ov
        = generateNext { st with isBusy := false } id orc sd ov) ∧
    (∀ (st : AppState) (id : Nat), st.isBusy = true →
      (acceptSection st id).contScheduled = false) := by
  constructor
  · intro st id orc sd ov hb hk hs
    cases orc <;> simp [generateNext, hb, hk, hs, assembleHistory, buildUser]
  · intro st id h
    simp [acceptSection, h]

/-- Witness for the C3 amended theorem at a concrete state. -/
theorem c3_busy_guard_in_callers_witness :
    generateNext { stC2w with isBusy := true } 1 (Except.ok "t2") false none
      = generateNext { stC2w with isBusy := false } 1 (Except.ok "t2") false none ∧
    (acceptSection stC3 0).contScheduled = false :=
  ⟨c3_busy_guard_in_callers.1 stC2w 1 (Except.ok "t2") false none
      (by decide) (by decide) rfl,
   c3_busy_guard_in_callers.2 stC3 0 rfl⟩

/-- State for the C4 counterexample: auto-advance on, one accepted prior
section, stop token `Z`. -/
def stC4 : AppState :=
  ⟨"b", "k", "", "", "", "", "Z", 5, true, false, false,
   [⟨0, "b", "t1", "t1", Status.accepted, 1⟩]⟩

/-- Store at continuation-fire time in which the latest section's stored
content does NOT contain the stop token. -/
def storeC4a : List Sec :=
  [⟨0, "b", "t1", "t1", Status.accepted, 1⟩, ⟨1, "b", "hello", "hello", Status.accepted, 2⟩]

/-- Store at continuation-fire time in which the latest section's stored
content DOES contain the stop token (e.g. the user edited it during the
settling delay). -/
def storeC4b : List Sec :=
  [⟨0, "b", "t1", "t1", Status.accepted, 1⟩, ⟨1, "b", "hello Z", "hello Z", Status.accepted, 2⟩]

/-- C4 counterexample: the continuation scheduled by `generateNext`
captures `hasStopToken` from the generated text before the delay; at
evaluation time, a store whose latest stored content contains the stop
token still gets another request, and two runs that differ only in the
latest section's stored content reach the same decision — the decision
does not follow the stored content. -/
theorem c4_counterexample :
    (generateNext stC4 1 (Except.ok "hello") false none).cont
      = some (includesStr (jsTrim "hello") "Z") ∧
    includesStr (jsTrim "hello") "Z" = false ∧
    includesStr (⟨1, "b", "hello Z", "hello Z", Status.accepted, 2⟩ : Sec).content "Z" = true ∧
    countAccepted storeC4b < 5 ∧
    autoAdvanceCheck (includesStr (jsTrim "hello") "Z") false storeC4b 5 true = ⟨true, true⟩ ∧
    autoAdvanceCheck (includesStr (jsTrim "hello") "Z") false storeC4a 5 true
      = autoAdvanceCheck (includesStr (jsTrim "hello") "Z") false storeC4b 5 true := by
  refine ⟨rfl, rfl, rfl, by decide, by decide, by decide⟩

/-- C4 amended: the continuation scheduled by `generateNext` re-reads
only the accepted-section count from the store — its decision is
invariant under store changes that preserve that count (in particular
under changes to the latest section's stored content), and issues no
request once the stored accepted count reaches the maximum; the
continuation scheduled by `accept` does re-read the latest section's
stored content and issues no request when that stored content contains
the stop token. -/
theorem c4_continuation_store_reads :
    (∀ (h sf : Bool) (s1 s2 : List Sec) (m : Nat) (a : Bool),
      countAccepted s1 = countAccepted s2 →
      autoAdvanceCheck h sf s1 m a = autoAdvanceCheck h sf s2 m a) ∧
    (∀ (h : Bool) (s : List Sec) (m : Nat) (a : Bool),
      ¬ countAccepted s < m → (autoAdvanceCheck h false s m a).issued = false) ∧
    (∀ (s : List Sec) (tok : String) (m : Nat) (a : Bool) (last : Sec),
      (sortByOrd s).getLast? = some last → includesStr last.content tok = true →
      acceptAdvanceCheck false s tok m a = ⟨false, false⟩) := by
  refine ⟨?_, ?_, ?_⟩
  · intro h sf s1 s2 m a hcount
    cases sf with
    | true => rfl
    | false => rw [autoAdvanceCheck_run, autoAdvanceCheck_run, hcount]
  · intro h s m a hge
    rw [autoAdvanceCheck_run]
    simp [hge]
  · intro s tok m a last hlast htok
    simp only [acceptAdvanceCheck, Bool.false_eq_true, if_false, hlast, htok]
    simp

/-- Witness for the C4 amended theorem at concrete stores. -/
theorem c4_continuation_store_reads_witness :
    autoAdvanceCheck false false storeC4a 5 true
      = autoAdvanceCheck false false storeC4b 5 true ∧
    (autoAdvanceCheck false false storeC4b 2 true).issued = false ∧
    acceptAdvanceCheck false storeC4b "Z" 5 true = ⟨false, false⟩ :=
  ⟨c4_continuation_store_reads.1 false false storeC4a storeC4b 5 true rfl,
   c4_continuation_store_reads.2.1 false storeC4b 2 true (by decide),
   c4_continuation_store_reads.2.2 storeC4b "Z" 5 true
     ⟨1, "b", "hello Z", "hello Z", Status.accepted, 2⟩ (by decide) (by decide)⟩

/-- Trace for the C1 counterexample: with auto-advance on, generate a
first section (draft), accept it, undo it (the store is now empty again
although one section was already generated for this document), re-enable
auto-advance, and generate again. Each step is a user-reachable store
operation (e.g. press Stop right after accepting so the pending timer
aborts, then Undo, then the Auto-advance button twice — its first press
is consumed by the stop-flag guard). -/
def trC1 : List Op :=
  [Op.setAuto true, Op.gen 0 "a", Op.acceptOp 0, Op.undo, Op.setAuto true, Op.gen 1 "b"]

/-- C1 counterexample: the second completion of `trC1` happens with
auto-advance active and with one section already generated for the
document (so it is not the very first section ever generated), yet its
status is `draft`, because the code tests the CURRENT section count
(`sections.length === 0`), not whether a section was ever generated. -/
theorem c1_counterexample :
    (runTrace trC1).genLog = [⟨true, 0, Status.draft⟩, ⟨true, 1, Status.draft⟩] ∧
    claimC1check (runTrace trC1).genLog = false := by
  constructor <;> rfl

/-- C1 amended: the appended section's status is `accepted` exactly when
auto-advance is active and the sections list is non-empty at completion
time (and `draft` in every other case). -/
theorem c1_status_rule (st : AppState) (id : Nat) (text : String) (sd : Bool)
    (ov : Option (List Sec)) (sec : Sec)
    (hb : st.bookId ≠ "") (hk : st.apiKey ≠ "") (hs : st.shouldStop = false)
    (happ : (generateNext st id (Except.ok text) sd ov).st.sections
              = st.sections ++ [sec]) :
    (sec.status = Status.accepted ↔ (st.autoAdvance = true ∧ st.sections ≠ [])) ∧
    (¬ (st.autoAdvance = true ∧ st.sections ≠ []) → sec.status = Status.draft) := by
  simp only [generateNext, hs] at happ
  rw [if_neg hb, if_neg hk] at happ
  simp only [Bool.false_eq_true, if_false, List.append_cancel_left_eq,
    List.cons.injEq, and_true] at happ
  have hstat : sec.status
      = (if st.autoAdvance && !st.sections.isEmpty then Status.accepted else Status.draft) := by
    rw [← happ]
  have hne : (st.sections ≠ []) ↔ (st.sections.isEmpty = false) := by
    cases st.sections <;> simp
  cases hA : st.autoAdvance <;> cases hE : st.sections.isEmpty <;>
    simp [hA, hE, hne] at hstat ⊢ <;> simp [hstat]

/-- Concrete state for the C1 amended witness: auto-advance on, one
existing section. -/
def stC1w : AppState :=
  ⟨"b", "k", "", "", "", "", "Z", 5, true, false, false,
   [⟨0, "b", "t1", "t1", Status.accepted, 1⟩]⟩

/-- The section appended by the C1 amended witness run. -/
def secC1w : Sec := ⟨1, "b", "b", "b", Status.accepted, 2⟩

/-- Witness for the C1 amended theorem at a concrete generation. -/
theorem c1_status_rule_witness :
    (secC1w.status = Status.accepted ↔ (stC1w.autoAdvance = true ∧ stC1w.sections ≠ [])) ∧
    (¬ (stC1w.autoAdvance = true ∧ stC1w.sections ≠ []) → secC1w.status = Status.draft) :=
  c1_status_rule stC1w 1 "b" false none secC1w (by decide) (by decide) rfl (by decide)

/-- Trace for the C5 counterexample: generate a section (ordinal 1),
accept it, undo it (ordinal 1 removed), generate again. -/
def trC5 : List Op := [Op.gen 0 "a", Op.acceptOp 0, Op.undo, Op.gen 1 "b"]

/-- C5 counterexample: across the append/delete sequence `trC5` the
assigned ordinals are 1, then again 1 after ordinal 1 was removed —
assignment is not strictly increasing across the whole sequence and a
removed ordinal is assigned again (the code assigns
`order = sections.length + 1`). -/
theorem c5_counterexample :
    (runTrace trC5).events = [Ev.assign 1, Ev.remove 1, Ev.assign 1] ∧
    claimC5check (runTrace trC5).events = false := by
  constructor <;> rfl

/-- C5 amended: across sequences of appends and status updates with no
deletion, assigned ordinals are exactly 1, 2, 3, … — strictly increasing,
starting at 1, with nothing reused; after a deletion the next append may
reuse a removed ordinal. -/
theorem c5_ordinals_append_only (ops : List Op)
    (hnd : ∀ op ∈ ops, nonDeleting op = true) :
    assigns (runTrace ops).events = List.range' 1 (gensIn ops) ∧
    claimC5check (runTrace ops).events = true := by
  obtain ⟨hlen, hev⟩ := runFrom_noDel ops hnd initTrace
  have hass : assigns (runTrace ops).events = List.range' 1 (gensIn ops) := by
    rw [show runTrace ops = runFrom initTrace ops from rfl, hev]
    simpa [initTrace, assigns_append] using assigns_assignEvs 0 ops
  refine ⟨hass, ?_⟩
  have hrem : hasRemove (runTrace ops).events = false := by
    rw [show runTrace ops = runFrom initTrace ops from rfl, hev]
    simpa [initTrace, hasRemove_append] using hasRemove_assignEvs 0 ops
  simp only [claimC5check, hass, strictIncr_range', startsOne_range',
    noReuse_of_not_hasRemove _ hrem, Bool.and_self]

/-- Deletion-free operation sequence for the C5 amended witness. -/
def opsC5w : List Op :=
  [Op.gen 0 "a", Op.acceptOp 0, Op.gen 1 "b", Op.discardOp 1, Op.gen 2 "c"]

/-- Witness for the C5 amended theorem at a concrete deletion-free
sequence. -/
theorem c5_ordinals_append_only_witness :
    assigns (runTrace opsC5w).events = List.range' 1 (gensIn opsC5w) ∧
    claimC5check (runTrace opsC5w).events = true :=
  c5_ordinals_append_only opsC5w (by decide)

end BookDistiller
